import Mathlib

/-!
Verification development for the file-source / format-ingestion core of a
layered configuration engine (Rust sources: `src/file/format/json.rs` and
`src/file/source/file.rs`).

The Rust code is shallowly embedded:
* `serde_json` values are the inductive `JValue`; a `serde_json::Number` is
  `SNumber` with its three variants `PosInt`/`NegInt`/`Float` and the
  accessors `as_i64`/`as_f64` translated from `serde_json`.
* 64-bit floats are modelled by their exact rational value (`Rat`); no claim
  inspects a float payload, so IEEE rounding is deliberately not modelled —
  only which variant (`Integer` vs `Float`) a number produces matters.
* the configuration `Value`/`ValueKind` tree and the string map `Map` live in
  `crate::value` / `crate::map`, outside the provided sources; they are
  modelled from the spec (see their doc comments).
* filesystem state is a list of paths that exist as regular files, and paths
  are plain strings with the `Path` operations (`join`, `extension`,
  `set_extension`, components) translated from their Rust semantics on Unix.
-/

/-- Modelled from the spec: `crate::map::Map` (not under `src/`) — a mapping
from string keys to values, keys unique, later insertion during construction
overwriting earlier.  Modelled as an association list with insert-overwrite. -/
def MapInsert {α : Type} (m : List (String × α)) (k : String) (v : α) : List (String × α) :=
  match m with
  | [] => [(k, v)]
  | (k', v') :: rest => if k' = k then (k, v) :: rest else (k', v') :: MapInsert rest k v

/-- A `serde_json::Number`: `PosInt` holds a `u64`, `NegInt` a negative `i64`,
`Float` an `f64` (modelled by its exact rational value). -/
inductive SNumber : Type where
  | posInt (n : Nat)
  | negInt (i : Int)
  | float (q : Rat)
deriving DecidableEq, Repr

/-- `serde_json::Number::as_i64`: a `PosInt` converts when it fits in `i64`,
a `NegInt` always converts, a `Float` never does. -/
def SNumber.as_i64 : SNumber → Option Int
  | .posInt n => if n ≤ 2 ^ 63 - 1 then some (n : Int) else none
  | .negInt i => some i
  | .float _ => none

/-- `serde_json::Number::as_f64`: every variant converts (integer variants by
numeric cast, the float variant as itself). -/
def SNumber.as_f64 : SNumber → Option Rat
  | .posInt n => some (n : Rat)
  | .negInt i => some (i : Rat)
  | .float q => some q

/-- A parsed `serde_json::Value`.  Objects iterate in a definite order and
have unique keys; both are modelled by an association list. -/
inductive JValue : Type where
  | str (s : String)
  | num (n : SNumber)
  | bool (b : Bool)
  | obj (fields : List (String × JValue))
  | arr (items : List JValue)
  | null

mutual
/-- Modelled from the spec: `crate::value::Value` (not under `src/`) — a
provenance-tagged node: an optional `origin` naming the source of the node
and a `kind` payload.  `Value::new(origin, kind)` is the constructor `mk`. -/
inductive Value : Type where
  | mk (origin : Option String) (kind : ValueKind)

/-- Modelled from the spec: `crate::value::ValueKind` (not under `src/`) —
the closed variant set of configuration data. -/
inductive ValueKind : Type where
  | nil
  | boolean (b : Bool)
  | integer (i : Int)
  | float (f : Rat)
  | string (s : String)
  | array (l : List Value)
  | table (m : List (String × Value))
end

def Value.origin : Value → Option String
  | .mk o _ => o

def Value.kind : Value → ValueKind
  | .mk _ k => k

def ValueKind.isInteger : ValueKind → Bool
  | .integer _ => true
  | _ => false

def ValueKind.isFloat : ValueKind → Bool
  | .float _ => true
  | _ => false

def ValueKind.isTable : ValueKind → Bool
  | .table _ => true
  | _ => false

def JValue.isObj : JValue → Bool
  | .obj _ => true
  | _ => false

mutual
/-- `from_json_value` (src/file/format/json.rs, lines 20–58): recursively
convert a parsed JSON value into a `Value`, tagging every node with the
`uri` supplied to the call.  The `unreachable!()` arm of the number case is
modelled as producing `Nil`; it is proven dead below. -/
def from_json_value (uri : Option String) : JValue → Value
  | .str s => .mk uri (.string s)
  | .num n =>
    match n.as_i64 with
    | some i => .mk uri (.integer i)
    | none =>
      match n.as_f64 with
      | some f => .mk uri (.float f)
      | none => .mk uri .nil
  | .bool b => .mk uri (.boolean b)
  | .obj fields => .mk uri (.table (from_json_fields uri [] fields))
  | .arr items => .mk uri (.array (from_json_items uri items))
  | .null => .mk uri .nil

/-- The object loop of `from_json_value`: starting from a fresh map `m`,
insert each converted field in iteration order. -/
def from_json_fields (uri : Option String) (m : List (String × Value)) :
    List (String × JValue) → List (String × Value)
  | [] => m
  | (k, v) :: rest => from_json_fields uri (MapInsert m k (from_json_value uri v)) rest

/-- The array loop of `from_json_value`: push each converted element. -/
def from_json_items (uri : Option String) : List JValue → List Value
  | [] => []
  | v :: rest => from_json_value uri v :: from_json_items uri rest
end

/-- `parse` (src/file/format/json.rs, lines 6–18).  The external
`serde_json::from_str` step is abstracted as the already-obtained parse
result (`Except.error` on malformed text); the remaining logic of the function —
convert via `from_json_value`, then return the root map if the root is a
`Table` and a fresh empty map otherwise — is translated directly. -/
def parse (uri : Option String) (parsed : Except String JValue) :
    Except String (List (String × Value)) :=
  match parsed with
  | .error e => .error e
  | .ok j =>
    match (from_json_value uri j).kind with
    | .table map => .ok map
    | _ => .ok []

/-! ### Numeric literals

The number lexing of `serde_json` (external to this repository, translated
from its documented parser): a literal with neither fractional part nor exponent
becomes `PosInt`/`NegInt` when it fits the 64-bit ranges and falls back to a
float otherwise (including `-0`); any literal with a fractional part or an
exponent becomes a float. -/

/-- A well-formed JSON numeric literal: optional minus sign, integer part
(as its numeric value), optional fractional digits (value and digit count),
optional signed decimal exponent. -/
structure NumLit : Type where
  neg : Bool
  ipart : Nat
  frac : Option (Nat × Nat)
  exp : Option Int
deriving DecidableEq, Repr

def ratPow10 (e : Int) : Rat :=
  if 0 ≤ e then (10 : Rat) ^ e.toNat else 1 / (10 : Rat) ^ (-e).toNat

/-- The exact rational value denoted by a numeric literal. -/
def NumLit.value (lit : NumLit) : Rat :=
  let mag : Rat :=
    match lit.frac with
    | none => (lit.ipart : Rat)
    | some (fval, flen) => (lit.ipart : Rat) + (fval : Rat) / (10 : Rat) ^ flen
  let scaled := mag * ratPow10 (lit.exp.getD 0)
  if lit.neg then -scaled else scaled

/-- The `serde_json::Number` produced for a literal: integer variants only
for plain literals within 64-bit range (`u64` for unsigned, `[-2^63, -1]`
for negative — `-0` and underflow fall back to float); everything else is a
float.  Float payloads carry the exact value (IEEE rounding unmodelled). -/
def serde_number_of_lit (lit : NumLit) : SNumber :=
  match lit.frac, lit.exp with
  | none, none =>
    if lit.neg then
      if 1 ≤ lit.ipart ∧ lit.ipart ≤ 2 ^ 63 then .negInt (-(lit.ipart : Int))
      else .float lit.value
    else
      if lit.ipart < 2 ^ 64 then .posInt lit.ipart
      else .float lit.value
  | _, _ => .float lit.value

/-! ### Paths and the file-source resolver (src/file/source/file.rs) -/

/-- Unix `Path::is_absolute` (= `has_root`). -/
def is_absolute (s : String) : Bool :=
  match s.data with
  | '/' :: _ => true
  | _ => false

/-- Split a character list at the LAST occurrence of `c`:
`some (before, after)`, or `none` when `c` does not occur. -/
def splitAtLastCharL (c : Char) : List Char → Option (List Char × List Char)
  | [] => none
  | x :: xs =>
    match splitAtLastCharL c xs with
    | some (b, a) => some (x :: b, a)
    | none => if x = c then some ([], xs) else none

/-- Split a string at the LAST occurrence of `c`: `some (before, after)`,
or `none` when `c` does not occur. -/
def splitAtLastChar (c : Char) (s : String) : Option (String × String) :=
  match splitAtLastCharL c s.data with
  | none => none
  | some (b, a) => some (String.mk b, String.mk a)

/-- The part of the path after the last separator (the whole path when there
is no separator). -/
def fileNameRaw (p : String) : String :=
  match splitAtLastChar '/' p with
  | none => p
  | some (_, after) => after

/-- The path up to and including the last separator (empty when there is no
separator). -/
def dirPrefix (p : String) : String :=
  match splitAtLastChar '/' p with
  | none => ""
  | some (before, _) => before ++ "/"

/-- `Path::file_name`: the final component, `none` for paths whose final
component is empty, `.` or `..`. -/
def file_name (p : String) : Option String :=
  let f := fileNameRaw p
  if f = "" ∨ f = "." ∨ f = ".." then none else some f

/-- `Path::extension`: the portion of the file name after its last `.`,
`none` when there is no `.` or the only `.` is the leading character. -/
def extension (p : String) : Option String :=
  (file_name p).bind fun f =>
    match splitAtLastChar '.' f with
    | none => none
    | some (before, after) => if before = "" then none else some after

/-- `Path::file_stem`: the file name up to its last `.` (the whole name when
there is no `.` or the only `.` is the leading character). -/
def file_stem_of (f : String) : String :=
  match splitAtLastChar '.' f with
  | none => f
  | some (before, _) => if before = "" then f else before

/-- `PathBuf::set_extension`: replace (or add) the extension of the file
name; a no-op when the path has no file name; an empty `ext` removes the
extension. -/
def set_extension (p : String) (ext : String) : String :=
  match file_name p with
  | none => p
  | some f => dirPrefix p ++ file_stem_of f ++ (if ext = "" then "" else "." ++ ext)

/-- `Path::join` for a base directory and a (possibly absolute) name. -/
def pathJoin (base p : String) : String :=
  if is_absolute p then p
  else if base.data.getLast? = some '/' ∨ base = "" then base ++ p
  else base ++ "/" ++ p

/-- The two failure modes of `find_file` (both `io::Error`s in the source,
distinguished by their messages). -/
inductive FindError : Type where
  | unregisteredFormat (path : String)
  | notFound (name : String)
deriving DecidableEq, Repr

/-- The exact-match registry scan of `find_file` (lines 37–47): first format
whose extension set contains the key wins. -/
def lookup_extension {F : Type} (key : String) : List (F × List String) → Option F
  | [] => none
  | (fmt, exts) :: rest => if key ∈ exts then some fmt else lookup_extension key rest

/-- The hint probing loop of `find_file` (lines 62–68): successively
`set_extension` the running filename with each candidate extension and stop
at the first existing file.  Returns the hit (if any) and the final mutated
filename. -/
def probe_exts (fs : List String) (filename : String) :
    List String → Option String × String
  | [] => (none, filename)
  | e :: es =>
    let f := set_extension filename e
    if f ∈ fs then (some f, f) else probe_exts fs f es

/-- The no-hint probing loop of `find_file` (lines 72–80): all registry rows
in order, the filename mutation carrying over between rows. -/
def probe_registry {F : Type} (fs : List String) (filename : String) :
    List (F × List String) → Option (String × F)
  | [] => none
  | (fmt, exts) :: rest =>
    match probe_exts fs filename exts with
    | (some f, _) => some (f, fmt)
    | (none, f') => probe_registry fs f' rest

/-- `find_file` (src/file/source/file.rs, lines 24–91).  The filesystem is
the list `fs` of paths that exist as regular files and `cwd` is the current
directory; a hint is the hinted format together with its
`file_extensions()` list; `registry` is `ALL_EXTENSIONS` in iteration
order. -/
def find_file {F : Type} (fs : List String) (cwd : String)
    (registry : List (F × List String)) (name : String)
    (format_hint : Option (F × List String)) :
    Except FindError (String × F) :=
  let filename := pathJoin cwd name
  if filename ∈ fs then
    match format_hint with
    | some (fmt, _) => .ok (filename, fmt)
    | none =>
      match lookup_extension ((extension filename).getD "") registry with
      | some fmt => .ok (filename, fmt)
      | none => .error (.unregisteredFormat filename)
  else
    match format_hint with
    | some (fmt, exts) =>
      match (probe_exts fs filename exts).1 with
      | some f => .ok (f, fmt)
      | none => .error (.notFound name)
    | none =>
      match probe_registry fs filename registry with
      | some (f, fmt) => .ok (f, fmt)
      | none => .error (.notFound name)

/-- The sequence of filenames probed by the hint loop: each candidate is
`set_extension` applied to the previous one. -/
def candidate_files (filename : String) : List String → List String
  | [] => []
  | e :: es =>
    let f := set_extension filename e
    f :: candidate_files f es

/-- The final mutated filename after probing a list of extensions. -/
def chain_end (filename : String) : List String → String
  | [] => filename
  | e :: es => chain_end (set_extension filename e) es

/-- The full registry-order probe sequence, each candidate paired with the
format whose extension produced it; the filename mutation carries over
between registry rows. -/
def candidate_table {F : Type} (filename : String) :
    List (F × List String) → List (String × F)
  | [] => []
  | (fmt, exts) :: rest =>
    (candidate_files filename exts).map (fun f => (f, fmt)) ++
      candidate_table (chain_end filename exts) rest

/-! ### The path relativizer (src/file/source/file.rs, lines 127–165) -/

/-- A normalized `std::path::Component` (Unix: no prefix components). -/
inductive Component : Type where
  | rootDir
  | curDir
  | parentDir
  | normal (s : String)
deriving DecidableEq, Repr

/-- Split a character list into chunks at every occurrence of `c`. -/
def splitOnCharL (c : Char) : List Char → List (List Char)
  | [] => [[]]
  | x :: xs =>
    if x = c then [] :: splitOnCharL c xs
    else
      match splitOnCharL c xs with
      | [] => [[x]]
      | g :: gs => (x :: g) :: gs

/-- Whether a relative path starts with a lone `.` component (exactly `.`
or a `./` prefix). -/
def startsWithCurDir (s : String) : Bool :=
  match s.data with
  | ['.'] => true
  | '.' :: '/' :: _ => true
  | _ => false

/-- `Path::components` on Unix: split on separators, drop empty chunks and
`.` chunks, except that a leading `.` of a relative path is retained; a
leading separator yields a root component. -/
def components (s : String) : List Component :=
  let chunks := ((splitOnCharL '/' s.data).map String.mk).filter
    (fun c => c != "" && c != ".")
  let comps := chunks.map (fun c => if c = ".." then Component.parentDir else .normal c)
  if is_absolute s then .rootDir :: comps
  else if startsWithCurDir s then .curDir :: comps
  else comps

/-- The component walk of `path_relative_from` (lines 140–162), with the
accumulated result components as explicit state. -/
def rel_comps : List Component → List Component → List Component → Option (List Component)
  | [], [], comps => some comps
  | a :: rest, [], comps => some (comps ++ a :: rest)
  | [], _ :: bs, comps => rel_comps [] bs (comps ++ [.parentDir])
  | a :: as', b :: bs, comps =>
    if comps = [] ∧ a = b then rel_comps as' bs comps
    else if b = .curDir then rel_comps as' bs (comps ++ [a])
    else if b = .parentDir then none
    else some (comps ++ .parentDir :: bs.map (fun _ => Component.parentDir) ++ a :: as')

/-- `path_relative_from` (lines 127–165), the result path represented by its
component list. -/
def path_relative_from (path base : String) : Option (List Component) :=
  if is_absolute path != is_absolute base then
    if is_absolute path then some (components path) else none
  else
    rel_comps (components path) (components base) []

/-- The fall-through condition of the number case of `from_json_value`: the
parsed number converts to neither an `i64` nor an `f64` (the source marks
this `unreachable!()`). -/
def hits_unreachable (n : SNumber) : Bool :=
  (n.as_i64).isNone && (n.as_f64).isNone

/-- The spec-side characterization of which numeric literals produce an
`Integer` node: no fractional part, no exponent, and a value within the
signed 64-bit range (`[1, 2^63]` in magnitude when negative, `[0, 2^63)`
when non-negative). -/
def lit_yields_integer (lit : NumLit) : Bool :=
  lit.frac == none && lit.exp == none &&
    (if lit.neg then decide (1 ≤ lit.ipart ∧ lit.ipart ≤ 2 ^ 63)
     else decide (lit.ipart < 2 ^ 63))

mutual
def origin_all (o : Option String) : Value → Bool
  | .mk o' k => (o' == o) && origin_all_kind o k

def origin_all_kind (o : Option String) : ValueKind → Bool
  | .array l => origin_all_list o l
  | .table m => origin_all_fields o m
  | _ => true

def origin_all_list (o : Option String) : List Value → Bool
  | [] => true
  | v :: rest => origin_all o v && origin_all_list o rest

def origin_all_fields (o : Option String) : List (String × Value) → Bool
  | [] => true
  | (_, v) :: rest => origin_all o v && origin_all_fields o rest
end

/-! ### Theorems -/

/-- The number case of `from_json_value` never produces a table node. -/
theorem num_kind_not_table (uri : Option String) (n : SNumber) :
    (from_json_value uri (.num n)).kind.isTable = false := by
  cases n <;> simp only [from_json_value, SNumber.as_i64, SNumber.as_f64] <;>
    first
      | rfl
      | (split <;> simp [Value.kind, ValueKind.isTable])

/-- C1: for every input whose JSON parse succeeds with a non-object root,
`parse` returns an empty table and never an error. -/
theorem claim_C1_non_object_root_yields_empty_table
    (uri : Option String) (v : JValue) (h : v.isObj = false) :
    parse uri (Except.ok v) = Except.ok [] := by
  have hnt : (from_json_value uri v).kind.isTable = false := by
    cases v with
    | obj fields => simp [JValue.isObj] at h
    | num n => exact num_kind_not_table uri n
    | str s => rfl
    | bool b => rfl
    | arr items => rfl
    | null => rfl
  simp only [parse]
  cases hk : (from_json_value uri v).kind
  case table m => rw [hk] at hnt ; simp [ValueKind.isTable] at hnt
  all_goals rfl

theorem claim_C1_witness :
    (JValue.arr [.num (.posInt 1), .num (.posInt 2), .num (.posInt 3)]).isObj = false ∧
      parse (some "cfg.json")
        (Except.ok (JValue.arr [.num (.posInt 1), .num (.posInt 2), .num (.posInt 3)])) =
        Except.ok [] :=
  ⟨by decide,
    claim_C1_non_object_root_yields_empty_table (some "cfg.json")
      (JValue.arr [.num (.posInt 1), .num (.posInt 2), .num (.posInt 3)]) (by decide)⟩

/-- C9: for every number produced by the parser, the branch where it
converts to neither `i64` nor `f64` is unreachable — `as_f64` in fact always
succeeds, so the number case of `from_json_value` always produces an
`Integer` or a `Float` node and never reaches the fatal arm. -/
theorem claim_C9_neither_representation_unreachable
    (uri : Option String) (n : SNumber) :
    hits_unreachable n = false ∧
      ((from_json_value uri (.num n)).kind.isInteger = true ∨
        (from_json_value uri (.num n)).kind.isFloat = true) := by
  refine ⟨?_, ?_⟩
  · cases n <;> simp [hits_unreachable, SNumber.as_i64, SNumber.as_f64]
  · cases n <;> simp only [from_json_value, SNumber.as_i64, SNumber.as_f64] <;>
      first
        | (left ; rfl)
        | (right ; rfl)
        | (split
           · left ; simp [Value.kind, ValueKind.isInteger]
           · right ; simp [Value.kind, ValueKind.isFloat])

/-- The walk consumes equal leading components while nothing has been
emitted yet. -/
theorem rel_comps_self (l : List Component) : rel_comps l l [] = some [] := by
  induction l with
  | nil => simp [rel_comps]
  | cons a rest ih => simpa [rel_comps] using ih

/-- C10: relativizing any path against itself succeeds with the empty
path. -/
theorem claim_C10_relative_self_empty (p : String) :
    path_relative_from p p = some [] := by
  simp [path_relative_from, rel_comps_self]

/-- C3: when the exact path for `name` exists as a regular file and a format
hint is present, `find_file` accepts immediately with the hinted format —
with no condition whatsoever on the actual extension of the file. -/
theorem claim_C3_exact_match_hint_overrides {F : Type} (fs : List String)
    (cwd : String) (registry : List (F × List String)) (name : String)
    (fmt : F) (exts : List String) (h : pathJoin cwd name ∈ fs) :
    find_file fs cwd registry name (some (fmt, exts)) =
      Except.ok (pathJoin cwd name, fmt) := by
  simp [find_file, h]

theorem claim_C3_witness :
    pathJoin "/d" "Settings.json" ∈ ["/d/Settings.json"] ∧
      extension (pathJoin "/d" "Settings.json") = some "json" ∧
      (∀ e ∈ ["toml"], extension (pathJoin "/d" "Settings.json") ≠ some e) ∧
      find_file ["/d/Settings.json"] "/d"
          [("toml", ["toml"]), ("json", ["json"])] "Settings.json"
          (some ("toml", ["toml"])) =
        Except.ok (pathJoin "/d" "Settings.json", "toml") :=
  ⟨by decide, by decide, by decide,
    claim_C3_exact_match_hint_overrides ["/d/Settings.json"] "/d"
      [("toml", ["toml"]), ("json", ["json"])] "Settings.json" "toml" ["toml"]
      (by decide)⟩

/-- The registry scan returns nothing when the extension set of every row
lacks the key. -/
theorem lookup_extension_none {F : Type} (key : String)
    (registry : List (F × List String))
    (h : ∀ row ∈ registry, key ∉ row.2) :
    lookup_extension key registry = none := by
  induction registry with
  | nil => rfl
  | cons row rest ih =>
    obtain ⟨fmt, exts⟩ := row
    have hk : key ∉ exts := h (fmt, exts) (List.mem_cons_self _ _)
    simp [lookup_extension, hk]
    exact ih fun r hr => h r (List.mem_cons_of_mem _ hr)

/-- C5: when the exact path exists, no hint was supplied, and the extension
of the file (empty when absent) belongs to no registry row, `find_file` fails
with the unregistered-format error naming the exact resolved path. -/
theorem claim_C5_unregistered_format {F : Type} (fs : List String)
    (cwd : String) (registry : List (F × List String)) (name : String)
    (h : pathJoin cwd name ∈ fs)
    (hreg : ∀ row ∈ registry, ((extension (pathJoin cwd name)).getD "") ∉ row.2) :
    find_file fs cwd registry name none =
      Except.error (.unregisteredFormat (pathJoin cwd name)) := by
  simp [find_file, h, lookup_extension_none _ _ hreg]

theorem claim_C5_witness :
    pathJoin "/d" "Settings.xyz" ∈ ["/d/Settings.xyz"] ∧
      (∀ row ∈ ([("toml", ["toml"]), ("json", ["json"])] : List (String × List String)),
        ((extension (pathJoin "/d" "Settings.xyz")).getD "") ∉ row.2) ∧
      find_file ["/d/Settings.xyz"] "/d"
          [("toml", ["toml"]), ("json", ["json"])] "Settings.xyz" none =
        Except.error (.unregisteredFormat (pathJoin "/d" "Settings.xyz")) :=
  ⟨by decide, by decide,
    claim_C5_unregistered_format ["/d/Settings.xyz"] "/d"
      [("toml", ["toml"]), ("json", ["json"])] "Settings.xyz"
      (by decide) (by decide)⟩

/-- C7 counterexample: the base `"./b"` contains a current-directory
component, yet the result of `relative("a", "./b")` retains no `.` — the
walk consumed the `.` (emitting no parent step for it) and retained the
path-side component `a` instead. -/
theorem claim_C7_counterexample :
    Component.curDir ∈ components "./b" ∧
      path_relative_from "a" "./b" =
        some [Component.normal "a", Component.parentDir] ∧
      Component.curDir ∉ [Component.normal "a", Component.parentDir] := by
  decide

/-- C7 (amended): when the walk compares a path component `a` against a
base-side `.` (and the pair is not consumed as an equal prefix), the `.` is
consumed — dropped from the base with no parent step emitted — and it is
the path-side component `a` that is retained on the result. -/
theorem claim_C7_amended_curdir_consumed (a : Component)
    (as' bs comps : List Component)
    (h : ¬(comps = [] ∧ a = Component.curDir)) :
    rel_comps (a :: as') (Component.curDir :: bs) comps =
      rel_comps as' bs (comps ++ [a]) := by
  simp [rel_comps, h]

theorem claim_C7_amended_witness :
    ¬(([] : List Component) = [] ∧ Component.normal "a" = Component.curDir) ∧
      rel_comps [Component.normal "a"] [Component.curDir, Component.normal "b"] [] =
        rel_comps [] [Component.normal "b"] [Component.normal "a"] :=
  ⟨by decide,
    claim_C7_amended_curdir_consumed (Component.normal "a") []
      [Component.normal "b"] [] (by decide)⟩

/-- C8 counterexample: `"a/b"` and `"x/.."` diverge at their first
components, the base contains a `..` after that divergence, and yet the
result is `some ["..", "..", "a", "b"]`, not `none` — the `..` left in the
base when the walk breaks at the divergence is drained into a parent step
instead of poisoning the result. -/
theorem claim_C8_counterexample :
    components "a/b" = [Component.normal "a", Component.normal "b"] ∧
      components "x/.." = [Component.normal "x", Component.parentDir] ∧
      (Component.normal "a" : Component) ≠ Component.normal "x" ∧
      Component.parentDir ∈ components "x/.." ∧
      path_relative_from "a/b" "x/.." =
        some [Component.parentDir, Component.parentDir,
          Component.normal "a", Component.normal "b"] := by
  decide

/-- C8 (amended): a `..` makes the result `none` exactly when the walk
compares it directly on the base side (and the pair is not consumed as an
equal prefix); but when the walk breaks at a divergence on an ordinary base
component, every remaining base component — `..` included — is converted
into a parent-directory step and the result stays `some`. -/
theorem claim_C8_amended_parentdir (a b : Component)
    (as' bs comps : List Component) (hne : ¬(comps = [] ∧ a = b)) :
    (b = Component.parentDir → rel_comps (a :: as') (b :: bs) comps = none) ∧
      (b ≠ Component.curDir → b ≠ Component.parentDir →
        rel_comps (a :: as') (b :: bs) comps =
          some (comps ++ Component.parentDir ::
            bs.map (fun _ => Component.parentDir) ++ a :: as')) := by
  constructor
  · intro hb
    subst hb
    simp [rel_comps, hne]
  · intro hcur hpar
    simp [rel_comps, hne, hcur, hpar]

theorem claim_C8_amended_witness :
    (¬(([] : List Component) = [] ∧ Component.normal "a" = Component.parentDir) ∧
      rel_comps [Component.normal "a"] [Component.parentDir] [] = none) ∧
      rel_comps [Component.normal "a", Component.normal "b"]
          [Component.normal "x", Component.parentDir] [] =
        some [Component.parentDir, Component.parentDir,
          Component.normal "a", Component.normal "b"] :=
  ⟨⟨by decide,
      (claim_C8_amended_parentdir (Component.normal "a") Component.parentDir
        [] [] [] (by decide)).1 rfl⟩,
    by
      have h := (claim_C8_amended_parentdir (Component.normal "a")
        (Component.normal "x") [Component.normal "b"] [Component.parentDir]
        [] (by decide)).2 (by decide) (by decide)
      simpa using h⟩

/-- C2 counterexample: the literal `9223372036854775808` (2^63) has no
fractional part and no exponent — and is an exactly-representable whole
number — yet its node is `Float`, not `Integer`, because it exceeds
`i64::MAX` and `as_i64` fails. -/
theorem claim_C2_counterexample :
    (NumLit.mk false 9223372036854775808 none none).frac = none ∧
      (NumLit.mk false 9223372036854775808 none none).exp = none ∧
      (from_json_value (some "cfg.json")
          (.num (serde_number_of_lit
            (NumLit.mk false 9223372036854775808 none none)))).kind.isInteger = false ∧
      (from_json_value (some "cfg.json")
          (.num (serde_number_of_lit
            (NumLit.mk false 9223372036854775808 none none)))).kind.isFloat = true := by
  refine ⟨rfl, rfl, ?_, ?_⟩ <;>
    simp [serde_number_of_lit, from_json_value, SNumber.as_i64, SNumber.as_f64,
      Value.kind, ValueKind.isInteger, ValueKind.isFloat]

/-- The number case of `from_json_value` yields `Integer` exactly when
`as_i64` succeeds. -/
theorem num_node_isInteger (uri : Option String) (n : SNumber) :
    (from_json_value uri (.num n)).kind.isInteger = (n.as_i64).isSome := by
  cases n with
  | posInt m =>
    by_cases h : m ≤ 9223372036854775807 <;>
      simp [from_json_value, SNumber.as_i64, SNumber.as_f64, Value.kind,
        ValueKind.isInteger, h]
  | negInt i =>
    simp [from_json_value, SNumber.as_i64, Value.kind, ValueKind.isInteger]
  | float q =>
    simp [from_json_value, SNumber.as_i64, SNumber.as_f64, Value.kind, ValueKind.isInteger]

/-- The number case of `from_json_value` yields `Float` exactly when
`as_i64` fails. -/
theorem num_node_isFloat (uri : Option String) (n : SNumber) :
    (from_json_value uri (.num n)).kind.isFloat = (n.as_i64).isNone := by
  cases n with
  | posInt m =>
    by_cases h : m ≤ 9223372036854775807 <;>
      simp [from_json_value, SNumber.as_i64, SNumber.as_f64, Value.kind,
        ValueKind.isFloat, h]
  | negInt i =>
    simp [from_json_value, SNumber.as_i64, Value.kind, ValueKind.isFloat]
  | float q =>
    simp [from_json_value, SNumber.as_i64, SNumber.as_f64, Value.kind, ValueKind.isFloat]

/-- `as_i64` succeeds on the number of a literal exactly under
`lit_yields_integer`. -/
theorem lit_as_i64_isSome (lit : NumLit) :
    ((serde_number_of_lit lit).as_i64).isSome = lit_yields_integer lit := by
  obtain ⟨neg, ipart, frac, exp⟩ := lit
  cases frac with
  | some f => simp [serde_number_of_lit, SNumber.as_i64, lit_yields_integer]
  | none =>
    cases exp with
    | some e => simp [serde_number_of_lit, SNumber.as_i64, lit_yields_integer]
    | none =>
      cases neg with
      | true =>
        by_cases h : 1 ≤ ipart ∧ ipart ≤ 9223372036854775808 <;>
          simp [serde_number_of_lit, SNumber.as_i64, lit_yields_integer, h]
      | false =>
        by_cases h64 : ipart < 18446744073709551616
        · by_cases h63 : ipart ≤ 9223372036854775807 <;>
            simp [serde_number_of_lit, SNumber.as_i64, lit_yields_integer, h64, h63] <;>
            omega
        · (simp [serde_number_of_lit, SNumber.as_i64, lit_yields_integer, h64] ; omega)

/-- C2 (amended): a parsed numeric literal produces `Integer` exactly when
it is a plain literal (no fractional part, no exponent) whose value lies in
the signed 64-bit range — whole-number literals outside that range, and the
literal `-0`, produce `Float` like all fractional or exponent-bearing
literals. -/
theorem claim_C2_amended_integer_iff_i64 (uri : Option String) (lit : NumLit) :
    (from_json_value uri (.num (serde_number_of_lit lit))).kind.isInteger =
        lit_yields_integer lit ∧
      (from_json_value uri (.num (serde_number_of_lit lit))).kind.isFloat =
        !lit_yields_integer lit := by
  constructor
  · rw [num_node_isInteger, lit_as_i64_isSome]
  · rw [num_node_isFloat]
    rw [show ((serde_number_of_lit lit).as_i64).isNone =
        !((serde_number_of_lit lit).as_i64).isSome from by
      cases (serde_number_of_lit lit).as_i64 <;> rfl]
    rw [lit_as_i64_isSome]

theorem origin_all_fields_insert (o : Option String) (m : List (String × Value))
    (k : String) (v : Value) (hm : origin_all_fields o m = true)
    (hv : origin_all o v = true) :
    origin_all_fields o (MapInsert m k v) = true := by
  induction m with
  | nil => simp [MapInsert, origin_all_fields, hv]
  | cons kv rest ih =>
    obtain ⟨k', v'⟩ := kv
    simp only [origin_all_fields, Bool.and_eq_true] at hm
    by_cases hk : k' = k <;>
      simp [MapInsert, hk, origin_all_fields, hv, hm.1, hm.2, ih hm.2]

mutual
theorem origin_aux_value (uri : Option String) :
    (v : JValue) → origin_all uri (from_json_value uri v) = true
  | .str s => by simp [from_json_value, origin_all, origin_all_kind]
  | .num n => by
    cases n with
    | posInt m =>
      by_cases h : m ≤ 9223372036854775807 <;>
        simp [from_json_value, SNumber.as_i64, SNumber.as_f64, origin_all,
          origin_all_kind, h]
    | negInt i =>
      simp [from_json_value, SNumber.as_i64, origin_all, origin_all_kind]
    | float q =>
      simp [from_json_value, SNumber.as_i64, SNumber.as_f64, origin_all, origin_all_kind]
  | .bool b => by simp [from_json_value, origin_all, origin_all_kind]
  | .obj fields => by
    simp only [from_json_value, origin_all, origin_all_kind]
    simp [origin_aux_fields uri [] fields rfl]
  | .arr items => by
    simp only [from_json_value, origin_all, origin_all_kind]
    simp [origin_aux_items uri items]
  | .null => by simp [from_json_value, origin_all, origin_all_kind]

theorem origin_aux_fields (uri : Option String) :
    (m : List (String × Value)) → (fields : List (String × JValue)) →
      origin_all_fields uri m = true →
      origin_all_fields uri (from_json_fields uri m fields) = true
  | m, [], hm => by simpa [from_json_fields] using hm
  | m, (k, v) :: rest, hm => by
    simp only [from_json_fields]
    exact origin_aux_fields uri (MapInsert m k (from_json_value uri v)) rest
      (origin_all_fields_insert uri m k _ hm (origin_aux_value uri v))

theorem origin_aux_items (uri : Option String) :
    (items : List JValue) → origin_all_list uri (from_json_items uri items) = true
  | [] => by simp [from_json_items, origin_all_list]
  | v :: rest => by
    simp [from_json_items, origin_all_list, origin_aux_value uri v,
      origin_aux_items uri rest]
end

/-- C6: every node of the tree produced by a parse call — at every depth —
carries exactly the origin supplied to the call; no node computes its own. -/
theorem claim_C6_every_node_inherits_origin (uri : Option String) (v : JValue) :
    origin_all uri (from_json_value uri v) = true :=
  origin_aux_value uri v

/-- The hint probing loop finds exactly the first candidate filename that
exists on disk. -/
theorem probe_exts_fst (fs : List String) (filename : String) (exts : List String) :
    (probe_exts fs filename exts).1 =
      (candidate_files filename exts).find? (fun f => decide (f ∈ fs)) := by
  induction exts generalizing filename with
  | nil => rfl
  | cons e es ih =>
    by_cases h : set_extension filename e ∈ fs <;>
      simp [probe_exts, candidate_files, List.find?, h, ih]

/-- When the probing loop misses, the mutated filename it leaves behind is
the full `set_extension` chain. -/
theorem probe_exts_snd_of_none (fs : List String) (filename : String)
    (exts : List String) (h : (probe_exts fs filename exts).1 = none) :
    (probe_exts fs filename exts).2 = chain_end filename exts := by
  induction exts generalizing filename with
  | nil => rfl
  | cons e es ih =>
    by_cases hm : set_extension filename e ∈ fs
    · simp [probe_exts, hm] at h
    · simp only [probe_exts, hm, if_neg, ite_false] at h ⊢
      simp only [chain_end]
      exact ih _ h

/-- The registry probing loop finds exactly the first candidate of the full
registry-order probe sequence that exists on disk. -/
theorem probe_registry_eq {F : Type} (fs : List String) (filename : String)
    (registry : List (F × List String)) :
    probe_registry fs filename registry =
      (candidate_table filename registry).find? (fun pf => decide (pf.1 ∈ fs)) := by
  induction registry generalizing filename with
  | nil => rfl
  | cons row rest ih =>
    obtain ⟨fmt, exts⟩ := row
    have hfst := probe_exts_fst fs filename exts
    simp only [probe_registry, candidate_table, List.find?_append, List.find?_map]
    cases hp : (probe_exts fs filename exts).1 with
    | some f =>
      rw [hp] at hfst
      rw [show probe_exts fs filename exts =
          (some f, (probe_exts fs filename exts).2) from by rw [← hp]]
      simp [Function.comp_def, ← hfst]
    | none =>
      rw [hp] at hfst
      rw [show probe_exts fs filename exts =
          (none, (probe_exts fs filename exts).2) from by rw [← hp]]
      rw [probe_exts_snd_of_none fs filename exts hp]
      simp [Function.comp_def, ← hfst, ih]

/-- C4: when no exact file exists, `find_file` probes candidate extensions —
only the extensions of the hint when a hint was given, else every registry
extension in iteration order — and the first candidate that exists wins; a
full miss is `NotFound` naming the original `name`. -/
theorem claim_C4_probe_first_wins {F : Type} (fs : List String) (cwd : String)
    (registry : List (F × List String)) (name : String) (fmt : F)
    (exts : List String) (h : pathJoin cwd name ∉ fs) :
    (find_file fs cwd registry name (some (fmt, exts)) =
      match (candidate_files (pathJoin cwd name) exts).find?
          (fun f => decide (f ∈ fs)) with
      | some f => Except.ok (f, fmt)
      | none => Except.error (.notFound name)) ∧
      (find_file fs cwd registry name none =
        match (candidate_table (pathJoin cwd name) registry).find?
            (fun pf => decide (pf.1 ∈ fs)) with
        | some hit => Except.ok hit
        | none => Except.error (.notFound name)) := by
  constructor
  · simp only [find_file, h, if_false, if_neg, probe_exts_fst]
  · simp only [find_file, h, if_false, if_neg, probe_registry_eq]
    cases (candidate_table (pathJoin cwd name) registry).find?
        (fun pf => decide (pf.1 ∈ fs)) with
    | none => rfl
    | some hit => rfl

theorem claim_C4_witness :
    pathJoin "/d" "Settings" ∉ ["/d/Settings.yaml"] ∧
      set_extension (pathJoin "/d" "Settings") "yaml" ∈ ["/d/Settings.yaml"] ∧
      find_file ["/d/Settings.yaml"] "/d"
          [("toml", ["toml"]), ("yaml", ["yaml", "yml"])] "Settings"
          (some ("toml", ["toml"])) =
        Except.error (.notFound "Settings") :=
  ⟨by decide, by decide,
    ((claim_C4_probe_first_wins ["/d/Settings.yaml"] "/d"
        [("toml", ["toml"]), ("yaml", ["yaml", "yml"])] "Settings" "toml"
        ["toml"] (by decide)).1).trans (by rfl)⟩
